import Mathlib

/-!
# Verification of the gift-finder search route and generative-UI schema builder

Shallow embedding of the TypeScript sources:

* `app/api/tools/gift_finder/search_redis/route.ts` (the search entry point),
* `lib/tools/generate-ui-tool.ts` (the strict JSON-schema builder),
* `config/ui/components.tsx` (the `PlpGridComponent` renderer),
* the `get_product` GET route (detail lookup).

JavaScript numbers are modelled by `JSNum` (`nan`, `±Infinity`, or a rational);
`Array.prototype.sort` is modelled by a stable insertion sort (`jsSort`) over
the ECMAScript `SortCompare` semantics (a comparator result of `NaN` counts as
`+0`, i.e. "equal"); `String → number` coercion (`Number(s)`) is modelled on the
decimal grammar (sign, digits, optional fraction, `Infinity`); the exponent and
hex forms of the grammar are not modelled, as no claim touches them.
-/

/-- A JavaScript number: `NaN`, `+Infinity`, `-Infinity`, or a finite value
(modelled as a rational; the claims never depend on float rounding). -/
inductive JSNum where
  | nan
  | inf
  | ninf
  | fin (q : ℚ)
deriving DecidableEq, Repr

namespace JSNum

/-- JS truthiness of a number: `NaN` and `0` are falsy. -/
def truthy : JSNum → Bool
  | nan => false
  | fin q => q ≠ 0
  | _ => true

/-- JS strict equality `===` on numbers: `NaN` is not equal to anything,
including itself. -/
def strictEq : JSNum → JSNum → Bool
  | nan, _ => false
  | _, nan => false
  | inf, inf => true
  | ninf, ninf => true
  | fin a, fin b => a = b
  | _, _ => false

/-- JS subtraction `a - b`: any `NaN` operand is contagious and
`Infinity - Infinity = NaN`. -/
def sub : JSNum → JSNum → JSNum
  | nan, _ => nan
  | _, nan => nan
  | inf, inf => nan
  | inf, _ => inf
  | ninf, ninf => nan
  | ninf, _ => ninf
  | fin _, inf => ninf
  | fin _, ninf => inf
  | fin a, fin b => fin (a - b)

/-- JS unary negation (used for `dir * x` with `dir = -1`). -/
def neg : JSNum → JSNum
  | nan => nan
  | inf => ninf
  | ninf => inf
  | fin q => fin (-q)

/-- `Math.min`: `NaN` wins over everything. -/
def jsMin : JSNum → JSNum → JSNum
  | nan, _ => nan
  | _, nan => nan
  | ninf, _ => ninf
  | _, ninf => ninf
  | inf, y => y
  | x, inf => x
  | fin a, fin b => fin (min a b)

/-- `Math.max`: `NaN` wins over everything. -/
def jsMax : JSNum → JSNum → JSNum
  | nan, _ => nan
  | _, nan => nan
  | inf, _ => inf
  | _, inf => inf
  | ninf, y => y
  | x, ninf => x
  | fin a, fin b => fin (max a b)

/-- JS multiplication by the positive literal `3` (used for `kLimit * 3`). -/
def mul3 : JSNum → JSNum
  | nan => nan
  | inf => inf
  | ninf => ninf
  | fin q => fin (3 * q)

/-- JS `a >= b` on numbers: false whenever `NaN` is involved. -/
def ge : JSNum → JSNum → Bool
  | nan, _ => false
  | _, nan => false
  | inf, _ => true
  | ninf, ninf => true
  | ninf, _ => false
  | fin _, inf => false
  | fin _, ninf => true
  | fin a, fin b => b ≤ a

/-- The sign classification the ECMAScript `SortCompare` operation applies to a
comparator result: `NaN` is replaced by `+0`, so it classifies as `eq`. -/
def sortSign : JSNum → Ordering
  | nan => .eq
  | inf => .gt
  | ninf => .lt
  | fin q => if q < 0 then .lt else if 0 < q then .gt else .eq

end JSNum

/-- The whitespace class used by the route's `\s` regex and by `trim` (the
ASCII/Latin-1 members; other Unicode space code points never occur in the
claims' inputs). -/
def jsWS (c : Char) : Bool :=
  c = ' ' || c = '\t' || c = '\n' || c = '\r' || c = '\x0b' || c = '\x0c' || c = '\xA0'

/-- Digit-string to `Nat`; `none` unless the (nonempty) list is all digits. -/
def parseNatDigits : List Char → Option Nat
  | [] => none
  | cs =>
    if cs.all (·.isDigit) then
      some (cs.foldl (fun n c => 10 * n + (c.toNat - 48)) 0)
    else none

/-- The unsigned decimal forms accepted by JS `Number`: `digits`,
`digits.digits`, `digits.`, `.digits`. -/
def parseUnsignedDec (cs : List Char) : Option ℚ :=
  match cs.span (· ≠ '.') with
  | (intPart, []) => (parseNatDigits intPart).map (fun n => (n : ℚ))
  | (intPart, _dot :: fracPart) =>
    if intPart.isEmpty && fracPart.isEmpty then none
    else
      let ip : Option ℚ :=
        if intPart.isEmpty then some 0
        else (parseNatDigits intPart).map (fun n => (n : ℚ))
      let fp : Option ℚ :=
        if fracPart.isEmpty then some 0
        else (parseNatDigits fracPart).map
          (fun n => (n : ℚ) / ((10 : ℚ) ^ fracPart.length))
      match ip, fp with
      | some a, some b => some (a + b)
      | _, _ => none

/-- The signed numeric literal forms accepted by JS `Number` coercion. -/
def parseSignedNum (cs : List Char) : JSNum :=
  match cs with
  | '-' :: rest =>
    if rest = "Infinity".data then .ninf
    else ((parseUnsignedDec rest).map (fun q => JSNum.fin (-q))).getD .nan
  | '+' :: rest =>
    if rest = "Infinity".data then .inf
    else ((parseUnsignedDec rest).map JSNum.fin).getD .nan
  | _ =>
    if cs = "Infinity".data then .inf
    else ((parseUnsignedDec cs).map JSNum.fin).getD .nan

/-- JS `Number(s)` for a string `s`: trim whitespace, empty string is `0`,
otherwise parse a signed decimal or `Infinity` literal, else `NaN`. -/
def jsToNumber (s : String) : JSNum :=
  let t := ((s.data.dropWhile jsWS).reverse.dropWhile jsWS).reverse
  if t.isEmpty then .fin 0 else parseSignedNum t

/-- Collapse each maximal run of `\s` characters to a single space:
the effect of `.replace(/\s+/g, ' ')`. -/
def collapseWS : List Char → List Char
  | [] => []
  | [c] => [if jsWS c then ' ' else c]
  | c :: d :: rest =>
    if jsWS c && jsWS d then collapseWS (d :: rest)
    else (if jsWS c then ' ' else c) :: collapseWS (d :: rest)

/-- `sanitize` from `route.ts`, on the string inputs the route reaches it with:
replace NUL bytes by spaces, collapse whitespace runs, trim, substitute `"."`
for an empty result, and cap the length at `max` (default 12000). -/
def sanitize (t : String) (max : Nat := 12000) : String :=
  let s1 := t.data.map (fun c => if c = '\x00' then ' ' else c)
  let s2 := collapseWS s1
  let s3 := ((s2.dropWhile (· = ' ')).reverse.dropWhile (· = ' ')).reverse
  let s4 := if s3.isEmpty then ['.'] else s3
  String.mk (s4.take max)

example : sanitize " " = "." := by decide
example : sanitize "" = "." := by decide
example : sanitize "  ciao \t mondo " = "ciao mondo" := by decide
example : jsToNumber "abc" = .nan := by decide
example : jsToNumber " 7 " = .fin 7 := by decide
example : jsToNumber "" = .fin 0 := by decide
example : jsToNumber "-Infinity" = .ninf := by decide

section StableSort

variable {α : Type*}

/-- Insert `a` before the first element `b` of `l` with `le a b`.
Together with `jsSort` this is a stable sort. -/
def orderedInsertB (le : α → α → Bool) (a : α) : List α → List α
  | [] => [a]
  | b :: l => if le a b then a :: b :: l else b :: orderedInsertB le a l

/-- The model of `Array.prototype.sort(comparefn)`: ES2019 specifies the sort
as stable and consistent with `SortCompare`; for a consistent comparator the
stable result is unique, so any stable sort (here: insertion sort over the
boolean relation `SortCompare(a,b) ≠ GT`) is the semantics of the source's
`.sort(...)` calls. -/
def jsSort (le : α → α → Bool) : List α → List α
  | [] => []
  | a :: l => orderedInsertB le a (jsSort le l)

theorem mem_orderedInsertB {le : α → α → Bool} {a x : α} {l : List α} :
    x ∈ orderedInsertB le a l ↔ x = a ∨ x ∈ l := by
  induction l with
  | nil => simp [orderedInsertB]
  | cons b l ih =>
    simp only [orderedInsertB]
    split
    · simp [List.mem_cons]
    · simp only [List.mem_cons, ih]
      tauto

theorem orderedInsertB_perm (le : α → α → Bool) (a : α) (l : List α) :
    (orderedInsertB le a l).Perm (a :: l) := by
  induction l with
  | nil => simp [orderedInsertB]
  | cons b l ih =>
    simp only [orderedInsertB]
    split
    · exact List.Perm.refl _
    · exact (ih.cons b).trans (List.Perm.swap a b l)

/-- `jsSort` permutes its input: no element is dropped or duplicated. -/
theorem jsSort_perm (le : α → α → Bool) (l : List α) : (jsSort le l).Perm l := by
  induction l with
  | nil => exact List.Perm.refl _
  | cons a l ih => exact (orderedInsertB_perm le a (jsSort le l)).trans (ih.cons a)

theorem sorted_orderedInsertB {P : α → Prop} (le : α → α → Bool)
    (trans : ∀ a b c, P a → P b → P c →
      le a b = true → le b c = true → le a c = true)
    (total : ∀ a b, P a → P b → le a b = true ∨ le b a = true)
    (a : α) (ha : P a) :
    ∀ l : List α, (∀ x ∈ l, P x) → l.Pairwise (le · ·) →
      (orderedInsertB le a l).Pairwise (le · ·) := by
  intro l
  induction l with
  | nil => intro _ _; simp [orderedInsertB]
  | cons b l ih =>
    intro hP hl
    rcases List.pairwise_cons.mp hl with ⟨hb, hl'⟩
    have hPb : P b := hP b (List.mem_cons_self _ _)
    have hPl : ∀ x ∈ l, P x := fun x hx => hP x (List.mem_cons_of_mem _ hx)
    simp only [orderedInsertB]
    split
    · next h =>
      refine List.pairwise_cons.mpr ⟨?_, hl⟩
      intro x hx
      rcases List.mem_cons.mp hx with rfl | hx
      · exact h
      · exact trans a b x ha hPb (hPl x hx) h (hb x hx)
    · next h =>
      have hba : le b a = true :=
        (total a b ha hPb).resolve_left (by simpa using h)
      refine List.pairwise_cons.mpr ⟨?_, ih hPl hl'⟩
      intro x hx
      rcases mem_orderedInsertB.mp hx with rfl | hx
      · exact hba
      · exact hb x hx

/-- For a boolean relation that is transitive and total on the elements of
`l`, `jsSort` produces a list sorted with respect to it. -/
theorem sorted_jsSort {P : α → Prop} (le : α → α → Bool)
    (trans : ∀ a b c, P a → P b → P c →
      le a b = true → le b c = true → le a c = true)
    (total : ∀ a b, P a → P b → le a b = true ∨ le b a = true) :
    ∀ l : List α, (∀ x ∈ l, P x) → (jsSort le l).Pairwise (le · ·) := by
  intro l
  induction l with
  | nil => intro _; simp [jsSort]
  | cons a l ih =>
    intro hP
    exact sorted_orderedInsertB le trans total a (hP a (List.mem_cons_self _ _))
      _ (fun x hx => hP x (List.mem_cons_of_mem _
        ((jsSort_perm le l).mem_iff.mp hx)))
      (ih fun x hx => hP x (List.mem_cons_of_mem _ hx))

end StableSort

namespace SearchRedis

/-- A parsed candidate row: the `row` object assembled in the route's reply
loop (`undefined` string fields are `none`; `price`/`score` are `undefined` or
a JS number, possibly `NaN`). -/
structure Row where
  code : Option String
  title : Option String
  brand : Option String
  category : Option String
  keywords : Option String
  price : Option JSNum
  score : Option JSNum
  product : Option String
deriving DecidableEq, Repr

/-- Field access on the flat `obj` built from a doc's alternating field/value
pairs; a later assignment to the same field overwrites an earlier one. -/
def objLookup (doc : List (String × String)) (k : String) : Option String :=
  (doc.reverse.find? (fun p => p.1 = k)).map (·.2)

/-- JS truthiness of an optional string (`undefined` and `""` are falsy). -/
def truthyStr : Option String → Bool
  | none => false
  | some s => s ≠ ""

/-- The `row` record built from one reply doc: `price` coerces `obj.price`,
else `obj.prezzo`, else stays `undefined`; `score` coerces `obj.score` only
when that string is truthy. -/
def parseRow (doc : List (String × String)) : Row :=
  let obj := objLookup doc
  { code := obj "code"
    title := obj "title"
    brand := obj "brand"
    category := obj "category"
    keywords := obj "keywords"
    price :=
      match obj "price" with
      | some s => some (jsToNumber s)
      | none =>
        match obj "prezzo" with
        | some s => some (jsToNumber s)
        | none => none
    score :=
      match obj "score" with
      | some s => if s ≠ "" then some (jsToNumber s) else none
      | none => none
    product := none }

/-- Outcome of the per-candidate `JSON.GET` + `JSON.parse` detail join. -/
inductive DetailOutcome where
  | cmdError             -- `sendCommand` threw
  | nullReply            -- no text came back (key absent)
  | malformed            -- `JSON.parse` threw
  | ok (json : String)   -- parsed; the raw text stands in for the payload
deriving DecidableEq, Repr

/-- The detail-join step of the loop: attempted only when `include_details`
and a truthy `code`; every failure inside `try { ... } catch {}` leaves the
row unchanged and is never re-thrown. -/
def applyDetail (include_details : Bool) (lookup : String → DetailOutcome)
    (row : Row) : Row :=
  if include_details && truthyStr row.code then
    match lookup (row.code.getD "") with
    | .ok j => { row with product := some j }
    | _ => row
  else row

/-- The route's full parse-and-join loop over the reply docs. -/
def buildItems (include_details : Bool) (lookup : String → DetailOutcome)
    (docs : List (List (String × String))) : List Row :=
  docs.map (fun d => applyDetail include_details lookup (parseRow d))

/-- `const order = sort_by === 'price_desc' ? 'price_desc' : 'price_asc'`:
anything except `'price_desc'` — including `'relevance'` and an absent
`sort_by` — resolves to `'price_asc'`. -/
def orderOf (sort_by : Option String) : String :=
  if sort_by = some "price_desc" then "price_desc" else "price_asc"

/-- The comparator passed to `.sort`: a price that is not a number (i.e.
`undefined`) reads as `+Infinity`; strictly-equal prices fall back to the
score difference (`?? 0`); otherwise `dir * (pa - pb)` with `dir = 1` for
`price_asc` and `-1` otherwise. -/
def rowComparator (order : String) (a b : Row) : JSNum :=
  let pa := a.price.getD .inf
  let pb := b.price.getD .inf
  if pa.strictEq pb then (a.score.getD (.fin 0)).sub (b.score.getD (.fin 0))
  else
    let d := pa.sub pb
    if order = "price_asc" then d else d.neg

/-- The "may come before" relation induced by the ECMAScript `SortCompare`
wrapper around `rowComparator`. -/
def rowLe (order : String) (a b : Row) : Bool :=
  (rowComparator order a b).sortSign ≠ .gt

/-- `items.slice().sort(comparator)`. -/
def sortStage (order : String) (items : List Row) : List Row :=
  jsSort (rowLe order) items

end SearchRedis

/-- `l.slice(0, e)` for a JS-number end index, per `ToIntegerOrInfinity`:
`NaN → 0`, truncation toward zero, a negative index counts from the end. -/
def jsSliceTo {α : Type*} (l : List α) (e : JSNum) : List α :=
  match e with
  | .nan => []
  | .ninf => []
  | .inf => l
  | .fin q =>
    let i : Int := q.num / (q.den : Int)
    l.take (if i < 0 then (l.length + i).toNat else i.toNat)

namespace SearchRedis

/-- `Number(k) || 5`: `||` yields the right operand when the left is falsy
(here `0` or `NaN`). -/
def jsNumOr (x d : JSNum) : JSNum := if x.truthy then x else d

/-- `const kLimit = Math.min(5, Number(k) || 5)`; the destructuring gives `k`
the default `8` when the body omits it. -/
def kLimitOf (k : Option JSNum) : JSNum :=
  JSNum.jsMin (.fin 5) (jsNumOr (k.getD (.fin 8)) (.fin 5))

/-- `const kQuery = Math.min(50, Math.max(kLimit, kLimit * 3))`. -/
def kQueryOf (kLimit : JSNum) : JSNum :=
  JSNum.jsMin (.fin 50) (JSNum.jsMax kLimit kLimit.mul3)

/-- The price filter expression: `*` when no bound is present, otherwise a
range clause carrying the bounds (absent ones standing for `-inf`/`+inf`). -/
inductive FilterE where
  | matchAll
  | priceRange (lo hi : Option JSNum)
deriving DecidableEq, Repr

def filterExprOf (min_price max_price : Option JSNum) : FilterE :=
  if min_price.isSome || max_price.isSome then .priceRange min_price max_price
  else .matchAll

end SearchRedis

namespace SearchRedis

/-- One argument of the `FT.SEARCH` command. `numStr n` models `String(n)`
with the numeric value kept unstringified; `queryExpr` models the KNN query
string `(filter)=>[KNN kQuery @embedding $vec AS score]`; `vecBuf` is the
binary embedding buffer. -/
inductive RArg where
  | str (s : String)
  | numStr (n : JSNum)
  | queryExpr (filter : FilterE) (kQuery : JSNum)
  | vecBuf
deriving DecidableEq, Repr

def returnFields : List String :=
  ["code", "title", "brand", "category", "keywords", "price", "prezzo", "score"]

/-- The full dialect-carrying argument list of the k-NN query. -/
def argsWithDialect (indexName : String) (filter : FilterE) (kQuery : JSNum) :
    List RArg :=
  [.str "FT.SEARCH", .str indexName, .queryExpr filter kQuery,
   .str "PARAMS", .str "2", .str "vec", .vecBuf,
   .str "SORTBY", .str "score", .str "LIMIT", .str "0", .numStr kQuery,
   .str "RETURN", .str "8"] ++ returnFields.map .str ++
  [.str "DIALECT", .str "2"]

/-- `argsWithDialect.slice(0, -2)` (drop the final two arguments). -/
def argsNoDialect (indexName : String) (filter : FilterE) (kQuery : JSNum) :
    List RArg :=
  let a := argsWithDialect indexName filter kQuery
  a.take (a.length - 2)

/-- The sequence of `FT.SEARCH` commands actually issued: the dialect form
first and, only when that throws, one retry without the dialect suffix. -/
def queryAttempts (firstFails : Bool) (indexName : String) (filter : FilterE)
    (kQuery : JSNum) : List (List RArg) :=
  if firstFails then
    [argsWithDialect indexName filter kQuery,
     argsNoDialect indexName filter kQuery]
  else [argsWithDialect indexName filter kQuery]

/-- The value of `query_text` in the request body, as the validation sees it. -/
inductive QueryField where
  | absent      -- missing from the body (or any falsy non-string)
  | nonString   -- present but not a string
  | str (s : String)
deriving DecidableEq, Repr

/-- The destructured request body. `include_details` defaults to `true` and
`k` to `8` when absent; `expanded` records the field's truthiness. -/
structure SearchBody where
  query_text : QueryField
  k : Option JSNum
  min_price : Option JSNum
  max_price : Option JSNum
  include_details : Bool
  expanded : Bool
  sort_by : Option String
deriving Repr

/-- The JSON envelope of a 200 response. -/
structure Envelope where
  count : Nat
  k : JSNum
  min_price : Option JSNum
  max_price : Option JSNum
  sort_by : String
  mode_used : String
  items : List Row
deriving DecidableEq, Repr

/-- The three response shapes the route can produce. -/
inductive RouteResult where
  | badRequest (error : String)                      -- 400
  | ok (env : Envelope)                              -- 200
  | serverError (error : String) (details : String)  -- 500
deriving DecidableEq, Repr

/-- The behavior of the external collaborators during one request:
the embedding provider as a function of the embedded text, the index's two
possible `FT.SEARCH` failures, the reply docs on success, and the per-code
detail-lookup outcome. `some msg` means "threw with message `msg`". -/
structure World where
  indexName : String
  embedError : String → Option String
  firstQueryFails : Bool
  secondQueryError : Option String
  rawDocs : List (List (String × String))
  detail : String → DetailOutcome

/-- The envelope of the 200 response (the assembly tail of the route, after a
reply was obtained). -/
def assembleEnv (w : World) (body : SearchBody) : Envelope :=
  let kLimit := kLimitOf body.k
  let items := buildItems body.include_details w.detail w.rawDocs
  let order := orderOf body.sort_by
  let out := jsSliceTo (sortStage order items) kLimit
  { count := out.length, k := kLimit, min_price := body.min_price,
    max_price := body.max_price, sort_by := order,
    mode_used := "semantic", items := out }

/-- The text handed to the embedding provider: the sanitized query, suffixed
with the fixed broadening terms when `expanded` is truthy. -/
def embedInput (body : SearchBody) (s : String) : String :=
  let q := sanitize s
  if body.expanded then q ++ " alternative simili correlati" else q

/-- The `POST` entry point: validate `query_text`, sanitize, optionally expand,
embed, run the k-NN query with the one dialect retry, assemble. Any error
thrown by the embedding call or by both query attempts is caught by the outer
handler, which responds 500 with the fixed `error` text and the thrown
message as `details`. -/
def postRoute (w : World) (body : SearchBody) : RouteResult :=
  match body.query_text with
  | .absent => .badRequest "Missing query_text"
  | .nonString => .badRequest "Missing query_text"
  | .str s =>
    if s = "" then .badRequest "Missing query_text"
    else
      match w.embedError (embedInput body s) with
      | some msg => .serverError "Failed to query Redis" msg
      | none =>
        if w.firstQueryFails then
          match w.secondQueryError with
          | some msg => .serverError "Failed to query Redis" msg
          | none => .ok (assembleEnv w body)
        else .ok (assembleEnv w body)

/-- The HTTP status of a route result. -/
def statusOf : RouteResult → Nat
  | .badRequest _ => 400
  | .ok _ => 200
  | .serverError _ _ => 500

/-- The `FT.SEARCH` command lines the route sends during one request, in
order: none when validation rejects the body or the embedding call throws;
otherwise the dialect attempt, followed by the no-dialect retry exactly when
the first attempt threw. -/
def issuedQueries (w : World) (body : SearchBody) : List (List RArg) :=
  match body.query_text with
  | .absent => []
  | .nonString => []
  | .str s =>
    if s = "" then []
    else
      match w.embedError (embedInput body s) with
      | some _ => []
      | none =>
        queryAttempts w.firstQueryFails w.indexName
          (filterExprOf body.min_price body.max_price)
          (kQueryOf (kLimitOf body.k))

end SearchRedis

namespace GenerateUI

/-- A JSON value as the generated schema inspects it: the discriminator slot
only ever checks string-ness and equality with a literal, so values are a
string or an opaque `other` payload that only parameter fragments examine. -/
inductive JVal (V : Type) where
  | str (s : String)
  | other (v : V)
deriving DecidableEq, Repr

/-- A JSON object with its fields in authoring order. -/
abbrev JObj (V : Type) := List (String × JVal V)

/-- One declared parameter of a component: its key and the acceptance
semantics of the schema fragment declared for it. -/
structure ParamDef (V : Type) where
  key : String
  accepts : JVal V → Bool

/-- A component definition consumed by `generate-ui-tool.ts` (the registry
module `config/components-definition` itself is not among the sources, so
claims are settled generically over registries). -/
structure ComponentDefinition (V : Type) where
  name : String
  parameters : List (ParamDef V)

/-- Assoc-list lookup by key (JSON object member access). -/
def lookupKey {A : Type} (obj : List (String × A)) (k : String) : Option A :=
  (obj.find? (fun p => p.1 = k)).map (·.2)

/-- JS object-literal update: replace the value at `k` if the key exists,
else append the pair — the effect of a spread entry on an accumulator. -/
def setKey {A : Type} : List (String × A) → String → A → List (String × A)
  | [], k, v => [(k, v)]
  | (k', v') :: rest, k, v =>
    if k' = k then (k', v) :: rest else (k', v') :: setKey rest k v

/-- The acceptance semantics of the `name` property schema
`{ type: 'string', enum: [component.name] }`. -/
def nameAccepts {V : Type} (n : String) : JVal V → Bool
  | .str s => s = n
  | .other _ => false

/-- The `properties` object emitted for one component:
`{ name: { type: 'string', enum: [name] }, ...component.parameters }`
(a later spread entry overrides an earlier key). -/
def propsOf {V : Type} (c : ComponentDefinition V) :
    List (String × (JVal V → Bool)) :=
  (c.parameters.map (fun p => (p.key, p.accepts))).foldl
    (fun acc q => setKey acc q.1 q.2) [("name", nameAccepts c.name)]

/-- The emitted `required` list: `['name', ...Object.keys(parameters)]`. -/
def requiredOf {V : Type} (c : ComponentDefinition V) : List String :=
  "name" :: c.parameters.map (·.key)

/-- Standard JSON-Schema semantics of the per-component object schema the
builder emits: every `required` key present, every present member validated
by its entry in `properties`, and — `additionalProperties: false` — no member
outside `properties`. -/
def defAccepts {V : Type} (c : ComponentDefinition V) (obj : JObj V) : Bool :=
  (requiredOf c).all (fun k => (lookupKey obj k).isSome) &&
  obj.all (fun kv =>
    match lookupKey (propsOf c) kv.1 with
    | some acc => acc kv.2
    | none => false)

/-- The `anyOf` union over the registry (`componentsList` referencing each
`$defs` entry). -/
def schemaAccepts {V : Type} (registry : List (ComponentDefinition V))
    (obj : JObj V) : Bool :=
  registry.any (fun c => defAccepts c obj)

/-- Modelled from the spec: a "syntactically valid instance" of a registered
component — an object carrying the literal `name` plus exactly the declared
parameters, each value satisfying its declared fragment. -/
def validInstance {V : Type} (c : ComponentDefinition V) (obj : JObj V) :
    Bool :=
  (match lookupKey obj "name" with
   | some (.str s) => s = c.name
   | _ => false) &&
  c.parameters.all (fun p =>
    match lookupKey obj p.key with
    | some v => p.accepts v
    | none => false) &&
  obj.all (fun kv => kv.1 = "name" || c.parameters.any (fun p => p.key = kv.1))

end GenerateUI

namespace PlpGrid

/-- A `plp_grid` child as the sorter reads it: an identifying payload plus
the optional numeric `match` field (`matchVal` here; `match` is reserved). -/
structure Child where
  id : Nat
  matchVal : Option JSNum
deriving DecidableEq, Repr

/-- `const cols = columns && columns >= 1 ? Math.min(columns, 6) : 3`:
a falsy `columns` (`undefined`, `0`, `NaN`) or one below `1` yields `3`,
anything else is clamped to at most `6`. -/
def colsOf (columns : Option JSNum) : JSNum :=
  match columns with
  | none => .fin 3
  | some c =>
    if c.truthy && c.ge (.fin 1) then JSNum.jsMin c (.fin 6) else .fin 3

/-- The `md:grid-cols-N` ladder: strict equality against `2`, `4`, `5`, `6`;
everything else falls through to the `-3` class. -/
def gridColsClass (cols : JSNum) : Nat :=
  if cols.strictEq (.fin 2) then 2
  else if cols.strictEq (.fin 4) then 4
  else if cols.strictEq (.fin 5) then 5
  else if cols.strictEq (.fin 6) then 6
  else 3

/-- `ma`/`mb` of the child comparator:
`typeof x.match === 'number' ? x.match : 0`. -/
def matchNum (c : Child) : JSNum := c.matchVal.getD (.fin 0)

/-- The "may come before" relation induced by `SortCompare` on the comparator
`(a, b) => mb - ma` (relevance descending). -/
def childLe (a b : Child) : Bool :=
  ((matchNum b).sub (matchNum a)).sortSign ≠ .gt

/-- `(children || []).slice().sort((a, b) => mb - ma)`. -/
def sortChildren (children : Option (List Child)) : List Child :=
  jsSort childLe (children.getD [])

end PlpGrid

namespace GetProduct

/-- JS truthiness of an optional string (shared shape with the search route:
`undefined`, `null` and `""` are falsy). -/
def truthyS : Option String → Bool
  | none => false
  | some s => s ≠ ""

/-- JS `a || b` on optional strings. -/
def jsOrStr (a b : Option String) : Option String :=
  if truthyS a then a else b

/-- The stored JSON product document, as far as the route reads it. -/
structure Product where
  code : Option String
  id : Option String
deriving DecidableEq, Repr

/-- Outcome of the inner `try` (`JSON.GET` plus `JSON.parse`). -/
inductive LookupOutcome where
  | cmdError             -- `sendCommand` threw
  | nullReply            -- no text: `product` stays `null`
  | malformed            -- `JSON.parse` threw
  | found (p : Product)
deriving DecidableEq, Repr

/-- The two response shapes of the `get_product` route. -/
inductive GetResult where
  | badRequest                                                   -- 400
  | ok (found : Bool) (code : Option String) (product : Option Product)
deriving DecidableEq, Repr

/-- `` const jsonKey = `${envRedis.JSON_PREFIX}${id || code}` `` (after the
`|| undefined` normalization of the two query parameters). -/
def jsonKeyOf (jsonPre : String) (code id : Option String) : String :=
  jsonPre ++ (jsOrStr id code).getD ""

/-- The `GET` entry point: `code`/`id` arrive `|| undefined`-normalized, the
route 400s when both are falsy, the store is consulted at `jsonKey` with all
lookup failures swallowed into `product = null`, and the echoed `code` is
`(product && (product.code || product.id)) || code || id || null`. -/
def getRoute (jsonPre : String) (store : String → LookupOutcome)
    (codeParam idParam : Option String) : GetResult :=
  let code := if truthyS codeParam then codeParam else none
  let id := if truthyS idParam then idParam else none
  if !truthyS code && !truthyS id then .badRequest
  else
    let product : Option Product :=
      match store (jsonKeyOf jsonPre code id) with
      | .found p => some p
      | _ => none
    let codeOut :=
      jsOrStr
        (match product with
         | some p => jsOrStr p.code p.id
         | none => none)
        (jsOrStr code id)
    .ok product.isSome codeOut product

end GetProduct

namespace SearchRedis

/-- Any 200 response of the route carries exactly the assembled envelope. -/
theorem postRoute_ok {w : World} {body : SearchBody} {env : Envelope}
    (h : postRoute w body = .ok env) : env = assembleEnv w body := by
  unfold postRoute at h
  repeat' split at h
  all_goals simp_all

/-- C5: during one request the route issues at most two `FT.SEARCH` commands:
none when validation or the embedding call aborts the request; otherwise the
dialect-carrying argument list first, followed — exactly when the first
attempt threw — by one retry whose argument list is the first one minus its
final two entries; and those two trailing entries are precisely `DIALECT 2`.
No third attempt exists on any path. -/
theorem C5_dialect_retry (w : World) (body : SearchBody) :
    (issuedQueries w body = [] ∨
      issuedQueries w body =
        (if w.firstQueryFails then
          [argsWithDialect w.indexName
              (filterExprOf body.min_price body.max_price)
              (kQueryOf (kLimitOf body.k)),
            argsNoDialect w.indexName
              (filterExprOf body.min_price body.max_price)
              (kQueryOf (kLimitOf body.k))]
        else
          [argsWithDialect w.indexName
              (filterExprOf body.min_price body.max_price)
              (kQueryOf (kLimitOf body.k))])) ∧
    (issuedQueries w body).length ≤ 2 ∧
    (∀ ix f kq,
      argsNoDialect ix f kq ++ [RArg.str "DIALECT", RArg.str "2"] =
        argsWithDialect ix f kq) := by
  refine ⟨?_, ?_, fun ix f kq => rfl⟩
  · unfold issuedQueries
    repeat' split
    all_goals first
    | exact Or.inl rfl
    | exact Or.inr rfl
    | (right; simp [queryAttempts, *])
  · unfold issuedQueries queryAttempts
    repeat' split
    all_goals simp

def C7world : World :=
  { indexName := "idx:products"
    embedError := fun s => some ("embedding called with: " ++ s)
    firstQueryFails := false
    secondQueryError := none
    rawDocs := []
    detail := fun _ => .nullReply }

def C7body : SearchBody :=
  { query_text := .str " ", k := none, min_price := none, max_price := none,
    include_details := true, expanded := false, sort_by := none }

/-- C7 counterexample: a whitespace-only `query_text` (`" "`) is not rejected
before the embedding call. Validation passes it, `sanitize` substitutes the
placeholder `"."`, and the embedding provider is invoked with that text —
observed here through a provider whose error message reports its input; the
route answers 500 (a provider failure), not 400 (a client rejection). -/
theorem C7_counterexample :
    postRoute C7world C7body =
      .serverError "Failed to query Redis" "embedding called with: ." ∧
    statusOf (postRoute C7world C7body) ≠ 400 ∧
    sanitize " " = "." := by
  exact ⟨by decide, by decide, by decide⟩

theorem collapseWS_all_ws :
    ∀ l : List Char, l ≠ [] → (∀ c ∈ l, jsWS c) → collapseWS l = [' '] := by
  intro l
  induction l with
  | nil => intro h; exact absurd rfl h
  | cons c l ih =>
    intro _ hws
    cases l with
    | nil => simp [collapseWS, hws c (by simp)]
    | cons d rest =>
      have hc : jsWS c := hws c (by simp)
      have hd : jsWS d := hws d (by simp)
      simpa [collapseWS, hc, hd] using
        ih (by simp) (fun x hx => hws x (List.mem_cons_of_mem _ hx))

/-- C7 (amended): the route rejects the request as a client-side 400 exactly
when `query_text` is absent, not a string, or the empty string; any other
string — whitespace-only text included — passes validation, and a
whitespace-only query is sanitized to the placeholder `"."` (with which the
embedding call is then made, as the counterexample shows). -/
theorem C7_validation (w : World) (body : SearchBody) :
    (postRoute w body = .badRequest "Missing query_text" ↔
      body.query_text = .absent ∨ body.query_text = .nonString ∨
        body.query_text = .str "") ∧
    (∀ s : String, s ≠ "" → (∀ c ∈ s.data, jsWS c) → sanitize s = ".") := by
  constructor
  · constructor
    · intro h
      unfold postRoute at h
      repeat' split at h
      all_goals simp_all
    · intro h
      rcases h with h | h | h <;> simp [postRoute, h]
  · intro s hs hws
    have h1 : s.data.map (fun c => if c = '\x00' then ' ' else c) = s.data := by
      have : ∀ c ∈ s.data, (if c = '\x00' then ' ' else c) = id c := by
        intro c hc
        have hcw : jsWS c := hws c hc
        have : c ≠ '\x00' := by
          intro hcn
          rw [hcn] at hcw
          exact absurd hcw (by decide)
        simp [this]
      rw [List.map_congr_left this, List.map_id]
    have hne : s.data ≠ [] := by
      intro hdat
      exact hs (by cases s; simp_all)
    have h2 := collapseWS_all_ws s.data hne hws
    simp only [sanitize]
    rw [h1, h2]
    decide

/-- C7 witness: the characterization applied to the empty query (rejected)
and to the one-space query (sanitized to `"."`). -/
theorem C7_validation_witness :
    postRoute C7world { C7body with query_text := .str "" } =
      .badRequest "Missing query_text" ∧
    (" " ≠ "" ∧ (∀ c ∈ " ".data, jsWS c)) ∧ sanitize " " = "." := by
  refine ⟨?_, ⟨by decide, by decide⟩, ?_⟩
  · exact (C7_validation C7world { C7body with query_text := .str "" }).1.mpr
      (Or.inr (Or.inr rfl))
  · exact (C7_validation C7world C7body).2 " " (by decide) (by decide)

def C8world : World :=
  { indexName := "idx:products"
    embedError := fun _ => none
    firstQueryFails := true
    secondQueryError := some "Connection refused 127.0.0.1:6379"
    rawDocs := []
    detail := fun _ => .nullReply }

def C8body : SearchBody :=
  { query_text := .str "agenda gatti", k := some (.fin 8), min_price := none,
    max_price := none, include_details := true, expanded := false,
    sort_by := none }

/-- C8 counterexample: when both query attempts throw, the 500 response's
`details` field carries the thrown provider message verbatim — the error
response contains the provider's error text, not only a generic message. -/
theorem C8_counterexample :
    postRoute C8world C8body =
      .serverError "Failed to query Redis" "Connection refused 127.0.0.1:6379" ∧
    C8world.secondQueryError = some "Connection refused 127.0.0.1:6379" := by
  exact ⟨by decide, by decide⟩

/-- C8 (amended): every 500 response does use the fixed generic text
`"Failed to query Redis"` as its `error` field, but it additionally exposes
the thrown provider/index message verbatim as its `details` field (stated
here for the failing-retry path). -/
theorem C8_error_detail (w : World) (body : SearchBody) :
    (∀ e d, postRoute w body = .serverError e d →
      e = "Failed to query Redis") ∧
    (∀ s msg, body.query_text = .str s → s ≠ "" →
      (∀ t, w.embedError t = none) → w.firstQueryFails = true →
      w.secondQueryError = some msg →
      postRoute w body = .serverError "Failed to query Redis" msg) := by
  constructor
  · intro e d h
    unfold postRoute at h
    repeat' split at h
    all_goals simp_all
  · intro s msg hq hs hemb hf hsec
    simp [postRoute, hq, hs, hemb, hf, hsec]

/-- C8 witness: the amended statement applied to a concrete failing world. -/
theorem C8_error_detail_witness :
    ((∀ t, C8world.embedError t = none) ∧ C8world.firstQueryFails = true ∧
      C8world.secondQueryError = some "Connection refused 127.0.0.1:6379") ∧
    postRoute C8world C8body =
      .serverError "Failed to query Redis" "Connection refused 127.0.0.1:6379" := by
  refine ⟨⟨fun t => rfl, rfl, rfl⟩, ?_⟩
  exact (C8_error_detail C8world C8body).2 "agenda gatti"
    "Connection refused 127.0.0.1:6379" rfl (by decide) (fun t => rfl) rfl rfl

end SearchRedis

theorem jsSliceTo_intCast {α : Type*} (l : List α) (n : ℤ) (hn : 0 ≤ n) :
    jsSliceTo l (.fin (n : ℚ)) = l.take n.toNat := by
  have h1 : ((n : ℚ)).num / (((n : ℚ)).den : ℤ) = n := by
    simp [Rat.intCast_num, Rat.intCast_den]
  simp only [jsSliceTo, h1]
  rw [if_neg (by omega)]

/-- Every slice the route takes is a sublist of what it sliced. -/
theorem jsSliceTo_sublist {α : Type*} (l : List α) (e : JSNum) :
    (jsSliceTo l e).Sublist l := by
  cases e with
  | nan => exact List.nil_sublist l
  | ninf => exact List.nil_sublist l
  | inf => exact List.Sublist.refl l
  | fin q => exact List.take_sublist _ l

namespace SearchRedis

theorem kLimitOf_pos_int (k : ℤ) (hk : 1 ≤ k) :
    kLimitOf (some (.fin (k : ℚ))) = .fin ((min 5 k : ℤ) : ℚ) := by
  have hne : (k : ℚ) ≠ 0 := by
    have : (0 : ℚ) < (k : ℚ) := by exact_mod_cast hk
    linarith
  simp only [kLimitOf, jsNumOr, JSNum.truthy, Option.getD_some]
  rw [if_pos (by simpa using hne)]
  simp only [JSNum.jsMin, JSNum.fin.injEq]
  push_cast
  rfl

def C1world : World :=
  { indexName := "idx:products"
    embedError := fun _ => none
    firstQueryFails := false
    secondQueryError := none
    rawDocs := [[("code", "AG001"), ("title", "Agenda"), ("score", "0")]]
    detail := fun _ => .nullReply }

def C1body : SearchBody :=
  { query_text := .str "agenda", k := some (.fin 0), min_price := none,
    max_price := none, include_details := false, expanded := false,
    sort_by := none }

def C1row : Row :=
  { code := some "AG001", title := some "Agenda", brand := none,
    category := none, keywords := none, price := none,
    score := some (.fin 0), product := none }

def C1env : Envelope :=
  { count := 1, k := .fin 5, min_price := none, max_price := none,
    sort_by := "price_asc", mode_used := "semantic", items := [C1row] }

/-- C1 counterexample: with requested `k = 0` the route still returns an
item — `Number(k) || 5` treats `0` as falsy, so the cap falls back to `5`,
and the claimed bound `count ≤ min(5, k) = 0` fails. -/
theorem C1_counterexample :
    postRoute C1world C1body = .ok C1env ∧
    C1body.k = some (.fin 0) ∧
    ¬((C1env.items.length : ℤ) ≤ min 5 0) := by
  exact ⟨by decide, rfl, by decide⟩

/-- C1 (amended): for every requested `k` that is a positive integer, a 200
envelope holds at most `min 5 k` items — in particular never more than the
hard cap of 5 — and its `count` field is the item count. (For `k = 0` or
`k = NaN` the `Number(k) || 5` fallback makes the effective cap 5, so the
original bound `min(5, k)` holds only for positive `k`.) -/
theorem C1_cap (w : World) (body : SearchBody) (env : Envelope) (k : ℤ)
    (hk : 1 ≤ k) (hbk : body.k = some (.fin (k : ℚ)))
    (h : postRoute w body = .ok env) :
    (env.items.length : ℤ) ≤ min 5 k ∧ env.items.length ≤ 5 ∧
      env.count = env.items.length := by
  have he := postRoute_ok h
  subst he
  simp only [assembleEnv]
  rw [hbk, kLimitOf_pos_int k hk, jsSliceTo_intCast _ _ (by omega)]
  refine ⟨?_, ?_, by first | rfl | trivial⟩
  · have h1 := List.length_take (min 5 k).toNat
      (sortStage (orderOf body.sort_by)
        (buildItems body.include_details w.detail w.rawDocs))
    omega
  · have h1 := List.length_take (min 5 k).toNat
      (sortStage (orderOf body.sort_by)
        (buildItems body.include_details w.detail w.rawDocs))
    omega

def C1body3 : SearchBody :=
  { query_text := .str "agenda", k := some (.fin ((3 : ℤ) : ℚ)),
    min_price := none, max_price := none, include_details := false,
    expanded := false, sort_by := none }

/-- C1 witness: the amended cap applied to `k = 3` on a one-candidate world. -/
theorem C1_cap_witness :
    ((1 : ℤ) ≤ 3 ∧ C1body3.k = some (.fin ((3 : ℤ) : ℚ)) ∧
      postRoute C1world C1body3 =
        .ok { C1env with k := .fin ((3 : ℤ) : ℚ) }) ∧
    ((({ C1env with k := .fin ((3 : ℤ) : ℚ) } : Envelope).items.length : ℤ) ≤
        min 5 3 ∧
      ({ C1env with k := .fin ((3 : ℤ) : ℚ) } : Envelope).items.length ≤ 5 ∧
      ({ C1env with k := .fin ((3 : ℤ) : ℚ) } : Envelope).count =
        ({ C1env with k := .fin ((3 : ℤ) : ℚ) } : Envelope).items.length) := by
  refine ⟨⟨by decide, rfl, by decide⟩, ?_⟩
  exact C1_cap C1world C1body3 _ 3 (by decide) rfl (by decide)

end SearchRedis


namespace SearchRedis

/-- `price`/`score` values for which the comparator is a consistent order:
absent, or a finite number. (A `NaN` price — e.g. from a non-numeric source
string — makes `SortCompare` report "equal" against everything.) -/
def isFinOrMissing : Option JSNum → Bool
  | none => true
  | some (.fin _) => true
  | some _ => false

/-- A row whose price and score are each absent or finite. -/
def goodRow (r : Row) : Bool :=
  isFinOrMissing r.price && isFinOrMissing r.score

/-- The effective sort key of a price: missing reads as `+Infinity` (`⊤`). -/
def priceKey (r : Row) : WithTop ℚ :=
  match r.price with
  | some (.fin q) => (q : WithTop ℚ)
  | _ => ⊤

/-- The effective tie-break key of a score: missing reads as `0`. -/
def scoreKey (r : Row) : ℚ :=
  match r.score with
  | some (.fin q) => q
  | _ => 0

/-- The ordering the ascending price sort realizes: strictly cheaper first,
price ties resolved by ascending score, missing prices (`⊤`) last. -/
def ascRel (a b : Row) : Prop :=
  priceKey a < priceKey b ∨ (priceKey a = priceKey b ∧ scoreKey a ≤ scoreKey b)

/-- The ordering the descending price sort realizes: strictly dearer first,
price ties resolved by ascending score, missing prices (`⊤`) first. -/
def descRel (a b : Row) : Prop :=
  priceKey b < priceKey a ∨ (priceKey a = priceKey b ∧ scoreKey a ≤ scoreKey b)

theorem isFinOrMissing_cases {o : Option JSNum} (h : isFinOrMissing o = true) :
    o = none ∨ ∃ q, o = some (.fin q) := by
  cases o with
  | none => exact Or.inl rfl
  | some v =>
    cases v with
    | fin q => exact Or.inr ⟨q, rfl⟩
    | nan => simp [isFinOrMissing] at h
    | inf => simp [isFinOrMissing] at h
    | ninf => simp [isFinOrMissing] at h

theorem score_getD_eq {r : Row} (h : isFinOrMissing r.score = true) :
    r.score.getD (.fin 0) = .fin (scoreKey r) := by
  rcases isFinOrMissing_cases h with h0 | ⟨q, hq⟩
  · simp [h0, scoreKey]
  · simp [hq, scoreKey]

theorem goodRow_price {r : Row} (h : goodRow r = true) :
    isFinOrMissing r.price = true := by
  simp [goodRow] at h
  exact h.1

theorem goodRow_score {r : Row} (h : goodRow r = true) :
    isFinOrMissing r.score = true := by
  simp [goodRow] at h
  exact h.2

theorem rowLe_iff_ne_gt {o : String} {a b : Row} :
    rowLe o a b = true ↔ (rowComparator o a b).sortSign ≠ .gt := by
  simp [rowLe]

theorem sortSign_fin_ne_gt (z : ℚ) :
    ((JSNum.fin z).sortSign ≠ .gt) ↔ z ≤ 0 := by
  simp only [JSNum.sortSign]
  split_ifs with h1 h2
  · simp only [ne_eq, reduceCtorEq, not_false_eq_true, true_iff]
    linarith
  · simp only [ne_eq, not_true_eq_false, false_iff, not_le]
    linarith
  · simp only [ne_eq, reduceCtorEq, not_false_eq_true, true_iff]
    linarith

theorem rowLe_asc_iff {a b : Row} (ha : goodRow a = true)
    (hb : goodRow b = true) :
    rowLe "price_asc" a b = true ↔ ascRel a b := by
  have hsa := score_getD_eq (goodRow_score ha)
  have hsb := score_getD_eq (goodRow_score hb)
  rcases isFinOrMissing_cases (goodRow_price ha) with hpa | ⟨qa, hpa⟩ <;>
    rcases isFinOrMissing_cases (goodRow_price hb) with hpb | ⟨qb, hpb⟩
  · have hcmp : rowComparator "price_asc" a b =
        .fin (scoreKey a - scoreKey b) := by
      simp [rowComparator, hpa, hpb, hsa, hsb, JSNum.strictEq, JSNum.sub]
    rw [rowLe_iff_ne_gt, hcmp, sortSign_fin_ne_gt]
    simp [ascRel, priceKey, hpa, hpb, sub_nonpos]
  · have hcmp : rowComparator "price_asc" a b = .inf := by
      simp [rowComparator, hpa, hpb, JSNum.strictEq, JSNum.sub]
    rw [rowLe_iff_ne_gt, hcmp]
    simp [JSNum.sortSign, ascRel, priceKey, hpa, hpb]
  · have hcmp : rowComparator "price_asc" a b = .ninf := by
      simp [rowComparator, hpa, hpb, JSNum.strictEq, JSNum.sub]
    rw [rowLe_iff_ne_gt, hcmp]
    simp [JSNum.sortSign, ascRel, priceKey, hpa, hpb, WithTop.coe_lt_top]
  · by_cases hq : qa = qb
    · subst hq
      have hcmp : rowComparator "price_asc" a b =
          .fin (scoreKey a - scoreKey b) := by
        simp [rowComparator, hpa, hpb, hsa, hsb, JSNum.strictEq, JSNum.sub]
      rw [rowLe_iff_ne_gt, hcmp, sortSign_fin_ne_gt]
      simp [ascRel, priceKey, hpa, hpb, sub_nonpos]
    · have hcmp : rowComparator "price_asc" a b = .fin (qa - qb) := by
        simp [rowComparator, hpa, hpb, JSNum.strictEq, hq, JSNum.sub]
      rw [rowLe_iff_ne_gt, hcmp, sortSign_fin_ne_gt]
      simp only [ascRel, priceKey, hpa, hpb, WithTop.coe_lt_coe,
        Option.getD_some, sub_nonpos, WithTop.coe_eq_coe, hq, false_and,
        or_false]
      constructor
      · intro h; exact lt_of_le_of_ne h hq
      · intro h; exact le_of_lt h

theorem rowLe_desc_iff {a b : Row} (ha : goodRow a = true)
    (hb : goodRow b = true) :
    rowLe "price_desc" a b = true ↔ descRel a b := by
  have hsa := score_getD_eq (goodRow_score ha)
  have hsb := score_getD_eq (goodRow_score hb)
  rcases isFinOrMissing_cases (goodRow_price ha) with hpa | ⟨qa, hpa⟩ <;>
    rcases isFinOrMissing_cases (goodRow_price hb) with hpb | ⟨qb, hpb⟩
  · have hcmp : rowComparator "price_desc" a b =
        .fin (scoreKey a - scoreKey b) := by
      simp [rowComparator, hpa, hpb, hsa, hsb, JSNum.strictEq, JSNum.sub]
    rw [rowLe_iff_ne_gt, hcmp, sortSign_fin_ne_gt]
    simp [descRel, priceKey, hpa, hpb, sub_nonpos]
  · have hcmp : rowComparator "price_desc" a b = .ninf := by
      simp [rowComparator, hpa, hpb, JSNum.strictEq, JSNum.sub, JSNum.neg]
    rw [rowLe_iff_ne_gt, hcmp]
    simp [JSNum.sortSign, descRel, priceKey, hpa, hpb, WithTop.coe_lt_top]
  · have hcmp : rowComparator "price_desc" a b = .inf := by
      simp [rowComparator, hpa, hpb, JSNum.strictEq, JSNum.sub, JSNum.neg]
    rw [rowLe_iff_ne_gt, hcmp]
    simp [JSNum.sortSign, descRel, priceKey, hpa, hpb]
  · by_cases hq : qa = qb
    · subst hq
      have hcmp : rowComparator "price_desc" a b =
          .fin (scoreKey a - scoreKey b) := by
        simp [rowComparator, hpa, hpb, hsa, hsb, JSNum.strictEq, JSNum.sub]
      rw [rowLe_iff_ne_gt, hcmp, sortSign_fin_ne_gt]
      simp [descRel, priceKey, hpa, hpb, sub_nonpos]
    · have hcmp : rowComparator "price_desc" a b = .fin (qb - qa) := by
        simp [rowComparator, hpa, hpb, JSNum.strictEq, hq, JSNum.sub,
          JSNum.neg]
      rw [rowLe_iff_ne_gt, hcmp, sortSign_fin_ne_gt]
      simp only [descRel, priceKey, hpa, hpb, WithTop.coe_lt_coe,
        Option.getD_some, sub_nonpos, WithTop.coe_eq_coe, hq, false_and,
        or_false]
      constructor
      · intro h; exact lt_of_le_of_ne h (fun heq => hq heq.symm)
      · intro h; exact le_of_lt h

end SearchRedis

namespace SearchRedis

theorem rowLe_asc_trans (a b c : Row) (ha : goodRow a = true)
    (hb : goodRow b = true) (hc : goodRow c = true)
    (hab : rowLe "price_asc" a b = true)
    (hbc : rowLe "price_asc" b c = true) :
    rowLe "price_asc" a c = true := by
  rw [rowLe_asc_iff ha hb] at hab
  rw [rowLe_asc_iff hb hc] at hbc
  rw [rowLe_asc_iff ha hc]
  rcases hab with h | ⟨h, hs⟩ <;> rcases hbc with h' | ⟨h', hs'⟩
  · exact Or.inl (h.trans h')
  · exact Or.inl (lt_of_lt_of_eq h h')
  · exact Or.inl (lt_of_eq_of_lt h h')
  · exact Or.inr ⟨h.trans h', hs.trans hs'⟩

theorem rowLe_asc_total (a b : Row) (ha : goodRow a = true)
    (hb : goodRow b = true) :
    rowLe "price_asc" a b = true ∨ rowLe "price_asc" b a = true := by
  rw [rowLe_asc_iff ha hb, rowLe_asc_iff hb ha]
  rcases lt_trichotomy (priceKey a) (priceKey b) with h | h | h
  · exact Or.inl (Or.inl h)
  · rcases le_total (scoreKey a) (scoreKey b) with hs | hs
    · exact Or.inl (Or.inr ⟨h, hs⟩)
    · exact Or.inr (Or.inr ⟨h.symm, hs⟩)
  · exact Or.inr (Or.inl h)

theorem rowLe_desc_trans (a b c : Row) (ha : goodRow a = true)
    (hb : goodRow b = true) (hc : goodRow c = true)
    (hab : rowLe "price_desc" a b = true)
    (hbc : rowLe "price_desc" b c = true) :
    rowLe "price_desc" a c = true := by
  rw [rowLe_desc_iff ha hb] at hab
  rw [rowLe_desc_iff hb hc] at hbc
  rw [rowLe_desc_iff ha hc]
  rcases hab with h | ⟨h, hs⟩ <;> rcases hbc with h' | ⟨h', hs'⟩
  · exact Or.inl (h'.trans h)
  · exact Or.inl (lt_of_eq_of_lt h'.symm h)
  · exact Or.inl (lt_of_lt_of_eq h' h.symm)
  · exact Or.inr ⟨h.trans h', hs.trans hs'⟩

theorem rowLe_desc_total (a b : Row) (ha : goodRow a = true)
    (hb : goodRow b = true) :
    rowLe "price_desc" a b = true ∨ rowLe "price_desc" b a = true := by
  rw [rowLe_desc_iff ha hb, rowLe_desc_iff hb ha]
  rcases lt_trichotomy (priceKey a) (priceKey b) with h | h | h
  · exact Or.inr (Or.inl h)
  · rcases le_total (scoreKey a) (scoreKey b) with hs | hs
    · exact Or.inl (Or.inr ⟨h, hs⟩)
    · exact Or.inr (Or.inr ⟨h.symm, hs⟩)
  · exact Or.inl (Or.inl h)

/-- The ascending sort stage on rows with finite-or-missing prices and scores
yields a list ordered by `ascRel` and permuting its input. -/
theorem sortStage_asc (items : List Row)
    (h : ∀ r ∈ items, goodRow r = true) :
    (sortStage "price_asc" items).Pairwise ascRel ∧
      (sortStage "price_asc" items).Perm items := by
  constructor
  · have hs := sorted_jsSort (P := fun r => goodRow r = true)
      (rowLe "price_asc") rowLe_asc_trans rowLe_asc_total items h
    refine hs.imp_of_mem ?_
    intro a b hma hmb hle
    have ha := h a ((jsSort_perm (rowLe "price_asc") items).mem_iff.mp hma)
    have hb := h b ((jsSort_perm (rowLe "price_asc") items).mem_iff.mp hmb)
    exact (rowLe_asc_iff ha hb).mp hle
  · exact jsSort_perm _ items

/-- The descending sort stage, symmetrically. -/
theorem sortStage_desc (items : List Row)
    (h : ∀ r ∈ items, goodRow r = true) :
    (sortStage "price_desc" items).Pairwise descRel ∧
      (sortStage "price_desc" items).Perm items := by
  constructor
  · have hs := sorted_jsSort (P := fun r => goodRow r = true)
      (rowLe "price_desc") rowLe_desc_trans rowLe_desc_total items h
    refine hs.imp_of_mem ?_
    intro a b hma hmb hle
    have ha := h a ((jsSort_perm (rowLe "price_desc") items).mem_iff.mp hma)
    have hb := h b ((jsSort_perm (rowLe "price_desc") items).mem_iff.mp hmb)
    exact (rowLe_desc_iff ha hb).mp hle
  · exact jsSort_perm _ items

end SearchRedis

namespace SearchRedis

def C3rowA : Row :=
  { code := some "A", title := none, brand := none, category := none,
    keywords := none, price := none, score := some (.fin 1), product := none }

def C3rowB : Row :=
  { code := some "B", title := none, brand := none, category := none,
    keywords := none, price := some (.fin 5), score := some (.fin 2),
    product := none }

def C3docN : List (String × String) :=
  [("code", "N"), ("price", "abc"), ("score", "1")]

/-- C3 counterexample: two failures of "missing or non-numeric price is
treated as `+Infinity` and therefore sorts last". (1) Under `price_desc` the
missing price still reads as `+Infinity`, which is the LARGEST key, so the
priceless row sorts first, not last. (2) A non-numeric price string coerces
to `NaN`, not `+Infinity`; the comparator then returns `NaN`, which
`SortCompare` treats as a tie, so the row keeps its position ahead of a
priced row instead of sorting last. -/
theorem C3_counterexample :
    (sortStage "price_desc" [C3rowA, C3rowB] = [C3rowA, C3rowB] ∧
      C3rowA.price = none ∧ C3rowA ≠ C3rowB) ∧
    ((parseRow C3docN).price = some .nan ∧
      sortStage "price_asc" [parseRow C3docN, C3rowB] =
        [parseRow C3docN, C3rowB] ∧
      parseRow C3docN ≠ C3rowB) := by
  exact ⟨⟨by decide, rfl, by decide⟩, by decide, by decide, by decide⟩

/-- C3 (amended): for rows whose `price` and `score` fields are each finite
or missing, `price_asc` returns the rows ordered by ascending price and
`price_desc` by descending price, with price ties ordered by ascending score
in both directions and no row dropped or duplicated; a missing price reads as
`+Infinity`, hence sorts last under `price_asc` but first under `price_desc`.
(A non-numeric price yields `NaN`, which ties with everything — excluded here
and exhibited in the counterexample.) -/
theorem C3_price_order (items : List Row)
    (h : ∀ r ∈ items, goodRow r = true) :
    ((sortStage "price_asc" items).Pairwise ascRel ∧
      (sortStage "price_asc" items).Perm items) ∧
    ((sortStage "price_desc" items).Pairwise descRel ∧
      (sortStage "price_desc" items).Perm items) :=
  ⟨sortStage_asc items h, sortStage_desc items h⟩

/-- C3 witness: the amended ordering applied to a concrete two-row list. -/
theorem C3_price_order_witness :
    (∀ r ∈ [C3rowB, C3rowA], goodRow r = true) ∧
    (((sortStage "price_asc" [C3rowB, C3rowA]).Pairwise ascRel ∧
        (sortStage "price_asc" [C3rowB, C3rowA]).Perm [C3rowB, C3rowA]) ∧
      ((sortStage "price_desc" [C3rowB, C3rowA]).Pairwise descRel ∧
        (sortStage "price_desc" [C3rowB, C3rowA]).Perm [C3rowB, C3rowA])) := by
  exact ⟨by decide, C3_price_order _ (by decide)⟩

def C2world : World :=
  { indexName := "idx:products"
    embedError := fun _ => none
    firstQueryFails := false
    secondQueryError := none
    rawDocs := [[("code", "A"), ("title", "Agenda"), ("score", "1")],
                [("code", "B"), ("title", "Borsa"), ("price", "5"),
                 ("score", "2")]]
    detail := fun _ => .nullReply }

def C2body : SearchBody :=
  { query_text := .str "regalo", k := none, min_price := none,
    max_price := none, include_details := false, expanded := false,
    sort_by := some "relevance" }

def C2rowA : Row :=
  { code := some "A", title := some "Agenda", brand := none, category := none,
    keywords := none, price := none, score := some (.fin 1), product := none }

def C2rowB : Row :=
  { code := some "B", title := some "Borsa", brand := none, category := none,
    keywords := none, price := some (.fin 5), score := some (.fin 2),
    product := none }

def C2env : Envelope :=
  { count := 2, k := .fin 5, min_price := none, max_price := none,
    sort_by := "price_asc", mode_used := "semantic",
    items := [C2rowB, C2rowA] }

/-- C2 counterexample: with `sort_by = "relevance"` the output is not the
index order truncated to the cap. The index returned [A, B] (A first, with no
price; B priced 5); the route resolves every non-`price_desc` mode to
`price_asc`, resorts, and responds [B, A]. -/
theorem C2_counterexample :
    postRoute C2world C2body = .ok C2env ∧
    jsSliceTo (buildItems C2body.include_details C2world.detail
        C2world.rawDocs) (kLimitOf C2body.k) = [C2rowA, C2rowB] ∧
    C2env.items = [C2rowB, C2rowA] ∧
    ([C2rowB, C2rowA] : List Row) ≠ [C2rowA, C2rowB] := by
  exact ⟨by decide, by decide, rfl, by decide⟩

/-- C2 (amended): when `sort_by` is `relevance` or absent, the final stage is
not a pass-through truncation of the index order: the route resolves the mode
to `price_asc`, reports `sort_by = "price_asc"` in the envelope, and the
returned items are ordered by ascending price (missing prices last, price
ties by ascending score), truncated to the cap. -/
theorem C2_relevance_is_price_asc (w : World) (body : SearchBody)
    (env : Envelope)
    (hsb : body.sort_by = none ∨ body.sort_by = some "relevance")
    (hgood : ∀ r ∈ buildItems body.include_details w.detail w.rawDocs,
      goodRow r = true)
    (h : postRoute w body = .ok env) :
    env.sort_by = "price_asc" ∧ env.items.Pairwise ascRel := by
  have he := postRoute_ok h
  subst he
  have horder : orderOf body.sort_by = "price_asc" := by
    rcases hsb with hsb | hsb <;> simp [orderOf, hsb]
  constructor
  · simp [assembleEnv, horder]
  · simp only [assembleEnv, horder]
    exact List.Pairwise.sublist (jsSliceTo_sublist _ _)
      (sortStage_asc _ hgood).1

/-- C2 witness: the amended statement applied to the concrete two-candidate
world of the counterexample. -/
theorem C2_relevance_witness :
    (C2body.sort_by = some "relevance" ∧
      (∀ r ∈ buildItems C2body.include_details C2world.detail C2world.rawDocs,
        goodRow r = true) ∧
      postRoute C2world C2body = .ok C2env) ∧
    (C2env.sort_by = "price_asc" ∧ C2env.items.Pairwise ascRel) := by
  refine ⟨⟨rfl, by decide, by decide⟩, ?_⟩
  exact C2_relevance_is_price_asc C2world C2body C2env (Or.inr rfl)
    (by decide) (by decide)

end SearchRedis

namespace SearchRedis

/-- C6: the per-candidate detail join is best-effort. One row is produced per
reply doc regardless of the lookup outcome; a candidate whose lookup does not
succeed (command error, empty reply, malformed JSON) is still included,
unchanged and without a `product` payload; and the detail outcomes can never
change the response status — in particular a partial-join failure is never
escalated to a request-level error. -/
theorem C6_detail_swallowed (include_details : Bool)
    (lookup : String → DetailOutcome)
    (docs : List (List (String × String))) :
    (buildItems include_details lookup docs).length = docs.length ∧
    (∀ doc ∈ docs,
      applyDetail include_details lookup (parseRow doc) ∈
        buildItems include_details lookup docs) ∧
    (∀ doc ∈ docs, (∀ j, lookup ((parseRow doc).code.getD "") ≠ .ok j) →
      applyDetail include_details lookup (parseRow doc) = parseRow doc ∧
        (parseRow doc).product = none) ∧
    (∀ (w : World) (body : SearchBody) (f g : String → DetailOutcome),
      statusOf (postRoute { w with detail := f } body) =
        statusOf (postRoute { w with detail := g } body)) := by
  refine ⟨by simp [buildItems], ?_, ?_, ?_⟩
  · intro doc hd
    exact List.mem_map.mpr ⟨doc, hd, rfl⟩
  · intro doc hd hfail
    refine ⟨?_, rfl⟩
    by_cases hcond : (include_details && truthyStr (parseRow doc).code) = true
    · simp only [applyDetail]
      rw [if_pos hcond]
    · simp only [applyDetail]
      rw [if_neg hcond]
  · intro w body f g
    unfold postRoute
    rcases body.query_text with _ | _ | s
    · rfl
    · rfl
    · repeat' split
      all_goals simp_all [statusOf]

/-- C6 witness: a malformed detail lookup on a one-candidate list — the row
is kept, unchanged, with no product payload. -/
theorem C6_detail_swallowed_witness :
    (buildItems true (fun _ => .malformed) [[("code", "X1")]]).length = 1 ∧
    applyDetail true (fun _ => .malformed) (parseRow [("code", "X1")]) ∈
      buildItems true (fun _ => .malformed) [[("code", "X1")]] ∧
    (applyDetail true (fun _ => .malformed) (parseRow [("code", "X1")]) =
      parseRow [("code", "X1")] ∧
      (parseRow [("code", "X1")]).product = none) := by
  obtain ⟨h1, h2, h3, _⟩ :=
    C6_detail_swallowed true (fun _ => .malformed) [[("code", "X1")]]
  exact ⟨h1, h2 _ (by simp),
    h3 _ (by simp) (fun j h => DetailOutcome.noConfusion h)⟩

end SearchRedis

namespace PlpGrid

/-- C9 counterexample: `columns = 7` lies outside the declared set
{2,3,4,5,6} but does not fall back to the baseline 3 — the renderer clamps it
with `Math.min(columns, 6)` and emits the 6-column class. -/
theorem C9_counterexample :
    gridColsClass (colsOf (some (.fin 7))) = 6 ∧ (6 : Nat) ≠ 3 := by
  exact ⟨by decide, by decide⟩

/-- The numeric relevance a child sorts by (`match`, read as 0 when absent). -/
def matchKey (c : Child) : ℚ :=
  match c.matchVal with
  | some (.fin q) => q
  | _ => 0

/-- A child whose `match` field is absent or finite. -/
def goodChild (c : Child) : Bool := SearchRedis.isFinOrMissing c.matchVal

theorem matchNum_eq {c : Child} (h : goodChild c = true) :
    matchNum c = .fin (matchKey c) := by
  rcases SearchRedis.isFinOrMissing_cases h with h0 | ⟨q, hq⟩
  · simp [matchNum, h0, matchKey]
  · simp [matchNum, hq, matchKey]

theorem childLe_iff {a b : Child} (ha : goodChild a = true)
    (hb : goodChild b = true) :
    childLe a b = true ↔ matchKey b ≤ matchKey a := by
  unfold childLe
  rw [matchNum_eq ha, matchNum_eq hb]
  simp only [JSNum.sub, ne_eq, decide_eq_true_eq]
  exact (SearchRedis.sortSign_fin_ne_gt _).trans sub_nonpos

theorem childLe_trans (a b c : Child) (ha : goodChild a = true)
    (hb : goodChild b = true) (hc : goodChild c = true)
    (hab : childLe a b = true) (hbc : childLe b c = true) :
    childLe a c = true := by
  rw [childLe_iff ha hb] at hab
  rw [childLe_iff hb hc] at hbc
  rw [childLe_iff ha hc]
  linarith

theorem childLe_total (a b : Child) (ha : goodChild a = true)
    (hb : goodChild b = true) :
    childLe a b = true ∨ childLe b a = true := by
  rw [childLe_iff ha hb, childLe_iff hb ha]
  exact (le_total (matchKey b) (matchKey a))

/-- C9 (amended): a falsy (`undefined`, `0`, `NaN`) or below-1 `columns`
falls back to the baseline 3; a `columns` of 6 or more is CLAMPED to the
6-column class (not dropped to 3); a `columns` in `[1, 6)` renders its own
class when it is one of the literals 2, 4, 5 and the 3-column class
otherwise. Children with finite-or-missing `match` values are re-sorted by
`match` descending (missing reading as 0) before layout, dropping none. -/
theorem C9_plp_grid :
    (colsOf none = .fin 3 ∧ colsOf (some .nan) = .fin 3 ∧
      colsOf (some (.fin 0)) = .fin 3) ∧
    (∀ q : ℚ, q < 1 → colsOf (some (.fin q)) = .fin 3) ∧
    (∀ q : ℚ, 6 ≤ q → gridColsClass (colsOf (some (.fin q))) = 6) ∧
    (∀ q : ℚ, 1 ≤ q → q < 6 →
      gridColsClass (colsOf (some (.fin q))) =
        (if q = 2 then 2 else if q = 4 then 4 else if q = 5 then 5 else 3)) ∧
    (∀ children : List Child, (∀ c ∈ children, goodChild c = true) →
      (sortChildren (some children)).Pairwise
          (fun a b => matchKey b ≤ matchKey a) ∧
        (sortChildren (some children)).Perm children ∧
        sortChildren none = []) := by
  refine ⟨⟨rfl, by decide, by decide⟩, ?_, ?_, ?_, ?_⟩
  · intro q hq
    have hge : JSNum.ge (.fin q) (.fin 1) = false := by
      simp only [JSNum.ge, decide_eq_false_iff_not, not_le]
      exact hq
    simp [colsOf, hge]
  · intro q hq
    have h0 : ¬(q = 0) := by intro h; rw [h] at hq; linarith
    have htr : JSNum.truthy (.fin q) = true := by
      simp only [JSNum.truthy, decide_eq_true_eq]
      exact h0
    have hge : JSNum.ge (.fin q) (.fin 1) = true := by
      simp only [JSNum.ge, decide_eq_true_eq]
      linarith
    have hmin : min q 6 = 6 := min_eq_right (by linarith)
    norm_num [colsOf, htr, hge, JSNum.jsMin, hmin, gridColsClass,
      JSNum.strictEq]
  · intro q h1q hq6
    have h0 : ¬(q = 0) := by intro h; rw [h] at h1q; linarith
    have htr : JSNum.truthy (.fin q) = true := by
      simp only [JSNum.truthy, decide_eq_true_eq]
      exact h0
    have hge : JSNum.ge (.fin q) (.fin 1) = true := by
      simp only [JSNum.ge, decide_eq_true_eq]
      linarith
    have hmin : min q 6 = q := min_eq_left (by linarith)
    have hq6' : ¬(q = 6) := by intro h; rw [h] at hq6; linarith
    simp [colsOf, htr, hge, JSNum.jsMin, hmin, gridColsClass,
      JSNum.strictEq, hq6']
  · intro children h
    refine ⟨?_, jsSort_perm _ _, rfl⟩
    have hs := sorted_jsSort (P := fun c => goodChild c = true) childLe
      childLe_trans childLe_total children h
    refine hs.imp_of_mem ?_
    intro a b hma hmb hle
    exact (childLe_iff
      (h a ((jsSort_perm childLe children).mem_iff.mp hma))
      (h b ((jsSort_perm childLe children).mem_iff.mp hmb))).mp hle

/-- C9 witness: the amended statement instantiated at `columns` values
`1/2`, `7`, `2` and a two-child list with one missing `match`. -/
theorem C9_plp_grid_witness :
    ((1 : ℚ) / 2 < 1 ∧ colsOf (some (.fin (1 / 2))) = .fin 3) ∧
    ((6 : ℚ) ≤ 7 ∧ gridColsClass (colsOf (some (.fin 7))) = 6) ∧
    ((1 : ℚ) ≤ 2 ∧ (2 : ℚ) < 6 ∧
      gridColsClass (colsOf (some (.fin 2))) =
        (if (2 : ℚ) = 2 then 2 else if (2 : ℚ) = 4 then 4
         else if (2 : ℚ) = 5 then 5 else 3)) ∧
    ((∀ c ∈ [Child.mk 0 (some (.fin 1)), Child.mk 1 none],
        goodChild c = true) ∧
      (sortChildren (some [Child.mk 0 (some (.fin 1)), Child.mk 1 none])).Pairwise
        (fun a b => matchKey b ≤ matchKey a) ∧
      (sortChildren (some [Child.mk 0 (some (.fin 1)), Child.mk 1 none])).Perm
        [Child.mk 0 (some (.fin 1)), Child.mk 1 none] ∧
      sortChildren (none : Option (List Child)) = []) := by
  obtain ⟨h1, h2, h3, h4, h5⟩ := C9_plp_grid
  have hch := h5 [Child.mk 0 (some (.fin 1)), Child.mk 1 none] (by decide)
  exact ⟨⟨by norm_num, h2 _ (by norm_num)⟩,
    ⟨by norm_num, h3 _ (by norm_num)⟩,
    ⟨by norm_num, by norm_num, h4 _ (by norm_num) (by norm_num)⟩,
    ⟨by decide, hch.1, hch.2.1, hch.2.2⟩⟩

end PlpGrid

namespace GetProduct

/-- C10: when both `code` and `id` query parameters are supplied (non-empty),
the store key is built from `id` — `code` plays no part in the lookup — and
the `code` echoed in the response prefers the stored document's own truthy
`code`, then its truthy `id`, and only then falls back to the caller's `code`
parameter. -/
theorem C10_id_wins (pre c i : String) (store : String → LookupOutcome)
    (p : Product) (hc : c ≠ "") (hi : i ≠ "")
    (hstore : store (pre ++ i) = .found p) :
    jsonKeyOf pre (some c) (some i) = pre ++ i ∧
    (∀ pc, p.code = some pc → pc ≠ "" →
      getRoute pre store (some c) (some i) = .ok true (some pc) (some p)) ∧
    (∀ pid, truthyS p.code = false → p.id = some pid → pid ≠ "" →
      getRoute pre store (some c) (some i) = .ok true (some pid) (some p)) ∧
    (truthyS p.code = false → truthyS p.id = false →
      getRoute pre store (some c) (some i) = .ok true (some c) (some p)) := by
  have htc : truthyS (some c) = true := by simp [truthyS, hc]
  have hti : truthyS (some i) = true := by simp [truthyS, hi]
  have hkey : jsonKeyOf pre (some c) (some i) = pre ++ i := by
    simp [jsonKeyOf, jsOrStr, hti]
  refine ⟨hkey, ?_, ?_, ?_⟩
  · intro pc hpc hpcne
    have hpct : truthyS (some pc) = true := by simp [truthyS, hpcne]
    simp [getRoute, htc, hti, hkey, hstore, jsOrStr, hpc, hpct]
  · intro pid hpcf hpid hpidne
    have hpidt : truthyS (some pid) = true := by simp [truthyS, hpidne]
    simp [getRoute, htc, hti, hkey, hstore, jsOrStr, hpcf, hpid, hpidt]
  · intro hpcf hpidf
    simp [getRoute, htc, hti, hkey, hstore, jsOrStr, hpcf, hpidf]

def C10store : String → LookupOutcome :=
  fun k => if k = "prod:ID7" then .found ⟨some "PC", some "PI"⟩ else .cmdError

/-- C10 witness: both parameters supplied; the key is `prod:ID7` (from `id`),
and the echoed code is the stored document's `PC`, not the caller's `C9X`. -/
theorem C10_id_wins_witness :
    ("C9X" ≠ "" ∧ "ID7" ≠ "" ∧
      C10store ("prod:" ++ "ID7") = .found ⟨some "PC", some "PI"⟩) ∧
    jsonKeyOf "prod:" (some "C9X") (some "ID7") = "prod:" ++ "ID7" ∧
    getRoute "prod:" C10store (some "C9X") (some "ID7") =
      .ok true (some "PC") (some ⟨some "PC", some "PI"⟩) := by
  have h := C10_id_wins "prod:" "C9X" "ID7" C10store ⟨some "PC", some "PI"⟩
    (by decide) (by decide) (by decide)
  exact ⟨⟨by decide, by decide, by decide⟩, h.1, h.2.1 "PC" rfl (by decide)⟩

end GetProduct

namespace GenerateUI

theorem lookupKey_cons {A : Type} (k' : String) (v' : A)
    (rest : List (String × A)) (k : String) :
    lookupKey ((k', v') :: rest) k =
      if k' = k then some v' else lookupKey rest k := by
  by_cases h : k' = k
  · simp [lookupKey, List.find?_cons, h]
  · simp [lookupKey, List.find?_cons, h]

theorem lookupKey_mem {A : Type} {obj : List (String × A)} {k : String}
    {v : A} (h : lookupKey obj k = some v) : (k, v) ∈ obj := by
  induction obj with
  | nil => simp [lookupKey] at h
  | cons p rest ih =>
    obtain ⟨k', v'⟩ := p
    rw [lookupKey_cons] at h
    by_cases hk : k' = k
    · rw [if_pos hk] at h
      subst hk
      injection h with hv
      subst hv
      exact List.mem_cons_self _ _
    · rw [if_neg hk] at h
      exact List.mem_cons_of_mem _ (ih h)

theorem lookupKey_of_mem_nodup {A : Type} {obj : List (String × A)}
    (hobj : (obj.map Prod.fst).Nodup) {k : String} {v : A}
    (h : (k, v) ∈ obj) : lookupKey obj k = some v := by
  induction obj with
  | nil => simp at h
  | cons p rest ih =>
    obtain ⟨k', v'⟩ := p
    simp only [List.map_cons, List.nodup_cons] at hobj
    rcases List.mem_cons.mp h with heq | hmem
    · cases heq
      rw [lookupKey_cons, if_pos rfl]
    · have hk : ¬(k' = k) := by
        intro he
        exact hobj.1 (he ▸ List.mem_map.mpr ⟨(k, v), hmem, rfl⟩)
      rw [lookupKey_cons, if_neg hk]
      exact ih hobj.2 hmem

theorem setKey_of_not_mem {A : Type} :
    ∀ (acc : List (String × A)) (k : String) (v : A),
      k ∉ acc.map Prod.fst → setKey acc k v = acc ++ [(k, v)] := by
  intro acc
  induction acc with
  | nil => intro k v _; rfl
  | cons p rest ih =>
    intro k v h
    obtain ⟨k', v'⟩ := p
    simp only [List.map_cons, List.mem_cons, not_or] at h
    simp only [setKey]
    rw [if_neg (fun he => h.1 he.symm)]
    rw [ih k v h.2]
    rfl

theorem foldl_setKey_append {A : Type} :
    ∀ (ps acc : List (String × A)),
      (∀ k ∈ ps.map Prod.fst, k ∉ acc.map Prod.fst) →
      (ps.map Prod.fst).Nodup →
      ps.foldl (fun a q => setKey a q.1 q.2) acc = acc ++ ps := by
  intro ps
  induction ps with
  | nil => intro acc _ _; simp
  | cons q rest ih =>
    intro acc hd hnd
    obtain ⟨kq, vq⟩ := q
    simp only [List.map_cons, List.nodup_cons] at hnd
    simp only [List.foldl_cons]
    rw [setKey_of_not_mem acc kq vq (hd kq (by simp))]
    rw [ih (acc ++ [(kq, vq)]) ?_ hnd.2]
    · simp
    · intro k hk
      simp only [List.map_append, List.mem_append, List.map_cons,
        List.map_nil, List.mem_cons, not_or]
      refine ⟨hd k (by simp [hk]), ?_, ?_⟩
      · intro he
        exact hnd.1 (he ▸ hk)
      · exact List.not_mem_nil k

theorem propsOf_eq {V : Type} (c : ComponentDefinition V)
    (hnm : "name" ∉ c.parameters.map ParamDef.key)
    (hnd : (c.parameters.map ParamDef.key).Nodup) :
    propsOf c = ("name", nameAccepts c.name) ::
      c.parameters.map (fun p => (p.key, p.accepts)) := by
  unfold propsOf
  have hkeys : (c.parameters.map (fun p => (p.key, p.accepts))).map Prod.fst =
      c.parameters.map ParamDef.key := by
    simp [List.map_map, Function.comp]
  rw [foldl_setKey_append]
  · rfl
  · intro k hk
    rw [hkeys] at hk
    simp only [List.map_cons, List.map_nil, List.mem_cons, List.not_mem_nil,
      or_false]
    intro he
    exact hnm (he ▸ hk)
  · rw [hkeys]
    exact hnd

theorem lookupKey_props_name {V : Type} (c : ComponentDefinition V)
    (hnm : "name" ∉ c.parameters.map ParamDef.key)
    (hnd : (c.parameters.map ParamDef.key).Nodup) :
    lookupKey (propsOf c) "name" = some (nameAccepts c.name) := by
  rw [propsOf_eq c hnm hnd, lookupKey_cons, if_pos rfl]

theorem find?_param_unique {V : Type} :
    ∀ (ps : List (ParamDef V)), (ps.map ParamDef.key).Nodup →
      ∀ p ∈ ps, ps.find? (fun x => x.key = p.key) = some p := by
  intro ps
  induction ps with
  | nil => intro _ p hp; simp at hp
  | cons q rest ih =>
    intro hnd p hp
    simp only [List.map_cons, List.nodup_cons] at hnd
    rcases List.mem_cons.mp hp with rfl | hmem
    · simp [List.find?_cons]
    · have hne : ¬(q.key = p.key) := by
        intro he
        exact hnd.1 (he ▸ List.mem_map.mpr ⟨p, hmem, rfl⟩)
      simpa [List.find?_cons, hne] using ih hnd.2 p hmem

theorem lookupKey_params {V : Type} :
    ∀ (ps : List (ParamDef V)) (k : String),
      lookupKey (ps.map (fun p => (p.key, p.accepts))) k =
        (ps.find? (fun x => x.key = k)).map ParamDef.accepts := by
  intro ps k
  induction ps with
  | nil => rfl
  | cons q rest ih =>
    simp only [List.map_cons]
    rw [lookupKey_cons]
    by_cases h : q.key = k
    · simp [List.find?_cons, h]
    · simp [List.find?_cons, h, ih]

end GenerateUI

namespace GenerateUI

theorem defAccepts_iff {V : Type} (c : ComponentDefinition V)
    (hnm : "name" ∉ c.parameters.map ParamDef.key)
    (hnd : (c.parameters.map ParamDef.key).Nodup)
    (obj : JObj V) (hobj : (obj.map Prod.fst).Nodup) :
    defAccepts c obj = true ↔ validInstance c obj = true := by
  have hpname := lookupKey_props_name c hnm hnd
  have hprops : ∀ k, ¬(k = "name") →
      lookupKey (propsOf c) k =
        (c.parameters.find? (fun x => x.key = k)).map ParamDef.accepts := by
    intro k hk
    rw [propsOf_eq c hnm hnd, lookupKey_cons, if_neg (fun he => hk he.symm),
      lookupKey_params]
  simp only [defAccepts, validInstance, Bool.and_eq_true, List.all_eq_true,
    Bool.or_eq_true, List.any_eq_true, decide_eq_true_eq]
  constructor
  · rintro ⟨hreq, hvals⟩
    refine ⟨⟨?_, ?_⟩, ?_⟩
    · -- the discriminator is the literal component name
      have h1 := hreq "name" (by simp [requiredOf])
      obtain ⟨v, hv⟩ := Option.isSome_iff_exists.mp h1
      have h2 := hvals _ (lookupKey_mem hv)
      rw [hpname] at h2
      rw [hv]
      cases v with
      | str s => exact h2
      | other w => simp [nameAccepts] at h2
    · -- every declared parameter is present and satisfies its fragment
      intro p hp
      have hk : p.key ∈ requiredOf c := by
        simp only [requiredOf, List.mem_cons]
        exact Or.inr (List.mem_map.mpr ⟨p, hp, rfl⟩)
      obtain ⟨v, hv⟩ := Option.isSome_iff_exists.mp (hreq _ hk)
      have h2 := hvals _ (lookupKey_mem hv)
      have hkname : ¬(p.key = "name") := fun he =>
        hnm (he ▸ List.mem_map.mpr ⟨p, hp, rfl⟩)
      rw [hprops _ hkname, find?_param_unique c.parameters hnd p hp] at h2
      rw [hv]
      exact h2
    · -- no member outside {name} ∪ declared parameters
      intro kv hkv
      by_cases hname : kv.1 = "name"
      · exact Or.inl hname
      · right
        have h2 := hvals kv hkv
        rw [hprops _ hname] at h2
        rcases hfind : c.parameters.find? (fun x => x.key = kv.1) with _ | p
        · rw [hfind] at h2
          simp at h2
        · refine ⟨p, List.mem_of_find?_eq_some hfind, ?_⟩
          have := List.find?_some hfind
          simpa using this
  · rintro ⟨⟨hname, hparams⟩, hclosed⟩
    have hn : lookupKey obj "name" = some (.str c.name) := by
      rcases hlk : lookupKey obj "name" with _ | v
      · rw [hlk] at hname
        simp at hname
      · rw [hlk] at hname
        cases v with
        | str s =>
          have hs : s = c.name := of_decide_eq_true hname
          rw [hs]
        | other w => simp at hname
    constructor
    · -- all required keys present
      intro k hk
      simp only [requiredOf, List.mem_cons] at hk
      rcases hk with rfl | hk
      · simp [hn]
      · obtain ⟨p, hp, rfl⟩ := List.mem_map.mp hk
        have h1 := hparams p hp
        rcases hlk : lookupKey obj p.key with _ | v
        · rw [hlk] at h1
          simp at h1
        · simp [hlk]
    · -- every member validates against its property schema
      intro kv hkv
      obtain ⟨k1, v1⟩ := kv
      have hl : lookupKey obj k1 = some v1 := lookupKey_of_mem_nodup hobj hkv
      rcases hclosed (k1, v1) hkv with hname1 | ⟨p, hp, hpk⟩
      · simp only at hname1
        subst hname1
        rw [hn] at hl
        injection hl with h2
        rw [hpname, ← h2]
        simp [nameAccepts]
      · simp only at hpk
        have hkname : ¬(k1 = "name") := by
          intro he
          exact hnm ((hpk.trans he) ▸ List.mem_map.mpr ⟨p, hp, rfl⟩)
        rw [hprops _ hkname]
        have hfind : c.parameters.find? (fun x => x.key = k1) = some p := by
          rw [← hpk]
          exact find?_param_unique c.parameters hnd p hp
        rw [hfind]
        have h1 := hparams p hp
        rw [hpk, hl] at h1
        exact h1

/-- C4: for well-formed component definitions — no component declares a
parameter literally named `name`, and parameter keys are distinct — the
schema the builder emits accepts a JSON object (with distinct member names)
exactly when the object is a syntactically valid instance of some registered
component: the literal `name` discriminator plus exactly the declared
parameters, each value satisfying its declared fragment. In particular an
object carrying an undeclared field, or an unregistered `name`, is
rejected. -/
theorem C4_roundtrip {V : Type} (registry : List (ComponentDefinition V))
    (hreg : ∀ c ∈ registry, "name" ∉ c.parameters.map ParamDef.key ∧
      (c.parameters.map ParamDef.key).Nodup)
    (obj : JObj V) (hobj : (obj.map Prod.fst).Nodup) :
    schemaAccepts registry obj = true ↔
      ∃ c ∈ registry, validInstance c obj = true := by
  simp only [schemaAccepts, List.any_eq_true]
  constructor
  · rintro ⟨c, hc, hacc⟩
    exact ⟨c, hc, (defAccepts_iff c (hreg c hc).1 (hreg c hc).2 obj hobj).mp hacc⟩
  · rintro ⟨c, hc, hval⟩
    exact ⟨c, hc, (defAccepts_iff c (hreg c hc).1 (hreg c hc).2 obj hobj).mpr hval⟩

def C4reg : List (ComponentDefinition Nat) :=
  [{ name := "item",
     parameters :=
       [⟨"item_name", fun v => match v with | .str _ => true | _ => false⟩,
        ⟨"price", fun v => match v with | .other _ => true | _ => false⟩] }]

def C4obj : JObj Nat :=
  [("name", .str "item"), ("item_name", .str "Agenda"), ("price", .other 19)]

def C4objBad : JObj Nat :=
  [("name", .str "item"), ("item_name", .str "Agenda"), ("price", .other 19),
   ("extra", .str "x")]

/-- C4 witness: the round-trip applied to a concrete one-component registry;
a valid instance is accepted, and an instance with an undeclared `extra`
field is rejected. -/
theorem C4_roundtrip_witness :
    ((∀ c ∈ C4reg, "name" ∉ c.parameters.map ParamDef.key ∧
        (c.parameters.map ParamDef.key).Nodup) ∧
      (C4obj.map Prod.fst).Nodup ∧ (C4objBad.map Prod.fst).Nodup) ∧
    (schemaAccepts C4reg C4obj = true ↔
      ∃ c ∈ C4reg, validInstance c C4obj = true) ∧
    (schemaAccepts C4reg C4objBad = true ↔
      ∃ c ∈ C4reg, validInstance c C4objBad = true) ∧
    schemaAccepts C4reg C4obj = true ∧
    schemaAccepts C4reg C4objBad = false := by
  exact ⟨⟨by decide, by decide, by decide⟩,
    C4_roundtrip C4reg (by decide) C4obj (by decide),
    C4_roundtrip C4reg (by decide) C4objBad (by decide),
    by decide, by decide⟩

end GenerateUI
